import Mathlib

/-!
Verification development for the TCP stream reassembly core and per-flow
reader pipeline of the netcap traffic-analysis framework.  The analysed file
contains the `encoder` package reader (`tcpReader.go`) and the `reassembly`
package assembler.  Types the assembler uses whose definitions live outside
the analysed file (Sequence, page, halfconnection, the page cache and the
stream interface) are modelled from the specification (spec.md §3-§4) and
marked as such; every function body is translated from the Go source.
Machine bytes are `Nat` values, byte buffers are `List Nat`, timestamps are
`Nat`, and sequence numbers are `Int` with explicit `% 2^32` arithmetic.
-/

namespace Netcap

/-- Modelled from the spec (§3, §4.1): sequence numbers are 32-bit values; a
distinguished sentinel outside the 32-bit space denotes "not yet observed"
(`invalidSequence` in the source). -/
def invalidSeq : Int := -1

/-- Modelled from the spec (§4.1): `add(n) → Sequence` with 32-bit
wraparound. -/
def seqAdd (s : Int) (n : Int) : Int := (s + n) % 4294967296

/-- Modelled from the spec (§4.1): `difference(other) → signed32` returns
`other - self` interpreted as a signed 32-bit value, so `seqDiff s t` is the
signed distance from `s` to `t`. -/
def seqDiff (s t : Int) : Int :=
  if (t - s) % 4294967296 < 2147483648 then (t - s) % 4294967296
  else (t - s) % 4294967296 - 4294967296

/-- Modelled from the spec (§3 Page, §4.5): a byte container, playing the
role of both a queued `page` and the assembler's transient `livePacket`
(both implement `byteContainer` in the source).  `id` stands in for pointer
identity: pages allocated from the cache get unique positive ids, the
assembler's single live packet has id 0.  `startF`/`endF` mirror the
start/end (SYN / FIN-or-RST) markers carried to `isEnd()`; `isPkt` mirrors
`isPacket()` (packet-origin flag used by the overlap statistics). -/
structure BC where
  seq : Int
  bytes : List Nat
  seen : Nat
  startF : Bool
  endF : Bool
  isPkt : Bool
  id : Nat
deriving DecidableEq, Repr

/-- Default byte container (used only as a `getLastD` fallback). -/
def bc0 : BC := ⟨0, [], 0, false, false, false, 0⟩

/-- Modelled from the spec (§4.2): the page cache.  Only the `used` counter
(consulted by the `MaxBufferedPagesTotal` check) and a fresh-id counter for
pointer identity are observable in the embedding. -/
structure PC where
  used : Int
  nextId : Nat
deriving DecidableEq, Repr

/-- Modelled from the spec (§3 HalfConnection): one direction of a
connection.  `queue` is the `first`/`last` doubly linked list of queued
pages in head-to-tail order, `saved` the list of retained delivered pages. -/
structure HalfSt where
  nextSeq : Int
  ackSeq : Int
  queue : List BC
  saved : List BC
  pages : Int
  closed : Bool
  lastSeen : Nat
  queuedBytes : Int
  queuedPackets : Int
  overlapBytes : Int
  overlapPackets : Int
deriving DecidableEq, Repr

/-- A fresh half-connection (both sequence numbers start at the invalid
sentinel). -/
def half0 : HalfSt := ⟨invalidSeq, invalidSeq, [], [], 0, false, 0, 0, 0, 0, 0⟩

/-- Observable summary of one `ReassembledSG` delivery to the consumer:
concatenated bytes of `sg.all`, the `Skip` value, the count of prepended
saved bytes, whether the last container carried the end marker, and the
direction. -/
structure Delivery where
  bytes : List Nat
  skipN : Int
  savedN : Int
  endF : Bool
  dirC2S : Bool
deriving DecidableEq, Repr

/-- Modelled from the spec (§6 Stream): the consumer's observable state —
the list of deliveries it has received and how many times
`ReassemblyComplete` was invoked on it.  One stream is shared by the two
halves of a connection. -/
structure StreamState where
  deliveries : List Delivery
  completeCalls : Nat
deriving DecidableEq, Repr

/-- A TCP segment as seen by `AssembleWithContext`: sequence and ack
numbers, the SYN/ACK/FIN/RST flag bits and the payload. -/
structure Seg where
  seqN : Int
  ackN : Int
  syn : Bool
  ackF : Bool
  fin : Bool
  rst : Bool
  payload : List Nat
deriving DecidableEq, Repr

/-- Modelled from the spec (§6 Stream): the polymorphic consumer behaviour:
the `Accept` policy gate (returning the verdict and the possibly mutated
force-start flag), the `toKeep` value the consumer stores into the
scatter-gather object, and the `ReassemblyComplete` return value. -/
structure Consumer where
  acceptF : Seg → Nat → Bool → Int → Bool → Bool × Bool
  toKeepF : Delivery → Int
  removeOnComplete : Bool

/-- AssemblerOptions: the two buffering limits (0 = unlimited). -/
structure AsmOpts where
  maxPagesPerConn : Int
  maxPagesTotal : Int
deriving DecidableEq, Repr

/-- Default assembler options (both limits unlimited). -/
def opts0 : AsmOpts := ⟨0, 0⟩

/-- Modelled from the spec (§4.5 livePacket): the assembler's transient
`cacheLP`. -/
structure LP where
  bytes : List Nat
  seq : Int
  seen : Nat
  startF : Bool
  endF : Bool
deriving DecidableEq, Repr

/-- Modelled from the spec (§4.2): page capacity of the fixed-size reusable
pages. -/
def pageBytes : Nat := 1900

/-- Recursion worker for `mkPages`.  Every step consumes at least one byte,
so any fuel of at least the byte count yields the full chain; the fuel only
makes the recursion structural (the source loop needs no fuel). -/
def mkPagesGo (pc : PC) (sq : Int) (seen : Nat) (sF eF : Bool) (firstOfPkt : Bool)
    (fuel : Nat) (l : List Nat) : List BC × PC :=
  if l = [] then ([], pc)
  else
    match fuel with
    | 0 => ([], pc)
    | fuel + 1 =>
      let chunk := l.take pageBytes
      let rest := l.drop pageBytes
      let p : BC := ⟨sq, chunk, seen, sF && firstOfPkt, eF && rest.isEmpty, firstOfPkt, pc.nextId⟩
      let pc1 : PC := ⟨pc.used + 1, pc.nextId + 1⟩
      let r := mkPagesGo pc1 (seqAdd sq chunk.length) seen sF eF false fuel rest
      (p :: r.1, r.2)

/-- Modelled from the spec (§4.2, §4.3): `convertToPages` — split a byte run
into a chain of pages of at most `pageBytes` bytes sharing one packet
origin; the first page carries the start marker, the last the end marker.
Each page gets a fresh id from the cache and bumps its `used` counter. -/
def mkPages (pc : PC) (sq : Int) (seen : Nat) (sF eF : Bool) (firstOfPkt : Bool)
    (l : List Nat) : List BC × PC :=
  mkPagesGo pc sq seen sF eF firstOfPkt l.length l

/-- Accumulator for the `checkOverlap` traversal: overlap statistics and the
number of pages released back to the cache while dropping covered pages. -/
structure CoAcc where
  oPkts : Int
  oBytes : Int
  rel : Int
deriving DecidableEq, Repr

/-- Embeds the tail-to-head traversal loop of `Assembler.checkOverlap`
(tcpReader.go, reassembly part).  The first argument list is the queue in
tail-to-head order (`cur` iterating over `prev` pointers); `suffix`
accumulates, in head-to-tail order, the surviving pages to the right of
`cur` (the pages from the loop's `next` pointer onward).  Returns the
untouched head part of the queue (head-to-tail), the surviving right part,
the remaining new bytes, and the statistics accumulator.  Cases are
numbered as in the source comments. -/
def coLoop (sSeq eSeq : Int) : List BC → List Nat → List BC → CoAcc →
    List BC × List BC × List Nat × CoAcc
  | [], bs, suffix, acc => ([], suffix, bs, acc)
  | cur :: rest, bs, suffix, acc =>
    if seqDiff eSeq cur.seq > 0 then
      -- case 5: end < cur.start, advance to the earlier page
      coLoop sSeq eSeq rest bs (cur :: suffix) acc
    else
      let curEnd := seqAdd cur.seq cur.bytes.length
      if seqDiff sSeq curEnd ≤ 0 then
        -- case 1: start ≥ cur.end, stop
        ((cur :: rest).reverse, suffix, bs, acc)
      else
        let dS := seqDiff sSeq cur.seq
        let dE := seqDiff eSeq curEnd
        if dE ≤ 0 ∧ dS ≥ 0 then
          -- case 3: new fully covers cur, drop cur and count the overlap
          coLoop sSeq eSeq rest bs suffix
            ⟨acc.oPkts + (if cur.isPkt then 1 else 0), acc.oBytes + cur.bytes.length, acc.rel + 1⟩
        else if dE < 0 ∧ seqDiff sSeq curEnd > 0 then
          -- case 2: new extends past cur's tail, truncate cur's tail to start
          ((({cur with bytes := cur.bytes.take (-dS).toNat}) :: rest).reverse, suffix, bs, acc)
        else if dS > 0 ∧ seqDiff eSeq cur.seq < 0 then
          -- case 4: new extends before cur's head, drop cur's leading bytes
          let d := (-(seqDiff eSeq cur.seq)).toNat
          coLoop sSeq eSeq rest bs
            ({cur with bytes := cur.bytes.drop d, seq := seqAdd cur.seq d} :: suffix) acc
        else if dE > 0 ∧ dS < 0 then
          -- case 6: new strictly inside cur, overwrite the interior bytes
          let off := (-dS).toNat
          coLoop sSeq eSeq rest []
            ({cur with bytes := cur.bytes.take off ++ bs ++ cur.bytes.drop (off + bs.length)} :: suffix) acc
        else
          -- no overlap
          coLoop sSeq eSeq rest bs (cur :: suffix) acc

/-- Embeds `Assembler.checkOverlap`: runs the traversal, applies the overlap
statistics and the released-page counts, and — when bytes remain and the
segment is being queued — splits them into pages spliced between the
traversal's stop position and its `next` pointer. -/
def checkOverlap (h : HalfSt) (pc : PC) (lp : LP) (doQueue : Bool) : HalfSt × PC × LP :=
  let sSeq := lp.seq
  let eSeq := seqAdd sSeq lp.bytes.length
  let r := coLoop sSeq eSeq h.queue.reverse lp.bytes [] ⟨0, 0, 0⟩
  let front := r.1
  let back := r.2.1
  let bs := r.2.2.1
  let acc := r.2.2.2
  let h1 : HalfSt :=
    { h with overlapPackets := h.overlapPackets + acc.oPkts,
             overlapBytes := h.overlapBytes + acc.oBytes,
             pages := h.pages - acc.rel }
  let pc1 : PC := { pc with used := pc.used - acc.rel }
  let lp1 : LP := { lp with bytes := bs, seq := sSeq }
  if bs ≠ [] ∧ doQueue then
    let ps := mkPages pc1 sSeq lp1.seen lp1.startF lp1.endF true bs
    ({ h1 with queue := front ++ ps.1 ++ back,
               queuedPackets := h1.queuedPackets + 1,
               queuedBytes := h1.queuedBytes + bs.length,
               pages := h1.pages + ps.1.length }, ps.2, lp1)
  else
    ({ h1 with queue := front ++ back }, pc1, lp1)

/-- Embeds `Assembler.overlapExisting`: trim the leading bytes of an
immediately delivered segment that overlap what was already sent, counting
the overlap.  Returns the updated half, the remaining bytes and the new
sequence for the live packet.  The unused second sequence mirrors the Go
parameter list. -/
def overlapExisting (h : HalfSt) (sSeq _eSeq : Int) (bs : List Nat) :
    HalfSt × List Nat × Int :=
  if h.nextSeq = invalidSeq then (h, bs, sSeq)
  else
    let diff := seqDiff sSeq h.nextSeq
    if diff = 0 then (h, bs, sSeq)
    else
      let e : Int := bs.length
      let h1 := if e ≠ 0 then
          { h with overlapPackets := h.overlapPackets + 1,
                   overlapBytes := h.overlapBytes + diff }
        else h
      let s : Int := 0 + diff
      let s1 := if s ≥ e then e else s
      (h1, bs.drop s1.toNat, h1.nextSeq)

/-- Embeds `Assembler.addNextFromConn`: pop the first queued page onto the
return list. -/
def addNextFromConn (h : HalfSt) (ret : List BC) : HalfSt × List BC :=
  match h.queue with
  | [] => (h, ret)
  | p :: rest => ({ h with queue := rest }, ret ++ [p])

/-- Embeds `Assembler.handleBytes`: queue the segment (running the overlap
algorithm, degrading when a page limit is hit) or prepare immediate
delivery (trimming against `nextSeq` and pushing the live packet onto the
return list when bytes, an end marker or a start marker are present). -/
def handleBytes (opts : AsmOpts) (h : HalfSt) (pc : PC) (bs : List Nat) (sq : Int)
    (seen : Nat) (sF eF : Bool) (doQueue : Bool) : HalfSt × PC × List BC :=
  let lp : LP := ⟨bs, sq, seen, sF, eF⟩
  if doQueue then
    let r := checkOverlap h pc lp true
    let h1 := r.1
    let pc1 := r.2.1
    if (opts.maxPagesPerConn > 0 ∧ h1.pages ≥ opts.maxPagesPerConn) ∨
       (opts.maxPagesTotal > 0 ∧ pc1.used ≥ opts.maxPagesTotal) then
      let a := addNextFromConn h1 []
      (a.1, pc1, a.2)
    else (h1, pc1, [])
  else
    let o := overlapExisting h sq (seqAdd sq bs.length) bs
    let r := checkOverlap o.1 pc { lp with bytes := o.2.1, seq := o.2.2 } false
    let lp1 := r.2.2
    if lp1.bytes ≠ [] ∨ eF = true ∨ sF = true then
      (r.1, r.2.1, [⟨lp1.seq, lp1.bytes, seen, sF, eF, true, 0⟩])
    else (r.1, r.2.1, [])

/-- Embeds `Assembler.addPending`: prepend the saved pages to the return
list when they are contiguous with its first byte, otherwise release them
all (the source does not adjust `half.pages` on that drop path).  Returns
the updated half and cache, the new return list and the count of prepended
bytes. -/
def addPending (h : HalfSt) (pc : PC) (ret : List BC) (firstSeq : Int) :
    HalfSt × PC × List BC × Int :=
  match h.saved with
  | [] => (h, pc, ret, 0)
  | s0 :: _ =>
    let s : Nat := (h.saved.map (fun p => p.bytes.length)).sum
    if seqAdd s0.seq s ≠ firstSeq then
      ({ h with saved := [] }, { pc with used := pc.used - h.saved.length }, ret, 0)
    else (h, pc, h.saved ++ ret, s)

/-- Embeds the pop loop of `Assembler.addContiguous`. -/
def addContigLoop : List BC → List BC → Int → List BC × List BC × Int
  | [], ret, lastS => ([], ret, lastS)
  | p :: rest, ret, lastS =>
    if seqDiff lastS p.seq = 0 then
      addContigLoop rest (ret ++ [p]) (seqAdd lastS p.bytes.length)
    else (p :: rest, ret, lastS)

/-- Embeds `Assembler.addContiguous`: append to the return list every queued
page contiguous with `lastS` (seeding `lastS` from the queue head when it is
the invalid sentinel), popping them from the queue. -/
def addContiguous (h : HalfSt) (ret : List BC) (lastS : Int) : HalfSt × List BC × Int :=
  match h.queue with
  | [] => (h, ret, lastS)
  | p :: _ =>
    let l0 := if lastS = invalidSeq then p.seq else lastS
    let r := addContigLoop h.queue ret l0
    ({ h with queue := r.1 }, r.2.1, r.2.2)

/-- The scatter-gather object handed to the consumer (`reassemblyObject`):
container list, `Skip`, prepended saved byte count, direction and the
statistics snapshot. -/
structure SG where
  all : List BC
  skipN : Int
  savedN : Int
  dirC2S : Bool
  queuedBytes : Int
  queuedPackets : Int
  overlapBytes : Int
  overlapPackets : Int
deriving DecidableEq, Repr

/-- Embeds `Assembler.buildSG` (with `setStatsToSG` folded in, as in the
source): compute `Skip`, prepend pending saved bytes, append contiguous
queued pages, snapshot and reset the statistics.  Returns the updated half
and cache, the scatter-gather object, whether its last container carries
the end marker, and the new next sequence.  The empty-return-list case is
unreachable from `sendToConnection`. -/
def buildSG (h : HalfSt) (pc : PC) (ret : List BC) (dir : Bool) :
    HalfSt × PC × SG × Bool × Int :=
  match ret with
  | [] => (h, pc, ⟨[], -1, 0, dir, 0, 0, 0, 0⟩, false, invalidSeq)
  | r0 :: _ =>
    let skipV := if h.nextSeq ≠ invalidSeq then seqDiff h.nextSeq r0.seq else -1
    let lastV := seqAdd r0.seq r0.bytes.length
    let ap := addPending h pc ret r0.seq
    let ac := addContiguous ap.1 ap.2.2.1 lastV
    let h2 := ac.1
    let sg : SG := ⟨ac.2.1, skipV, ap.2.2.2, dir,
                    h2.queuedBytes, h2.queuedPackets, h2.overlapBytes, h2.overlapPackets⟩
    let h3 := { h2 with queuedBytes := 0, queuedPackets := 0,
                        overlapBytes := 0, overlapPackets := 0 }
    (h3, ap.2.1, sg, (ac.2.1.getLastD bc0).endF, ac.2.2)

/-- Embeds the index-finding loop of `Assembler.cleanSG` (locating the first
container to keep for a non-negative `toKeep`). -/
def findNdxLoop (toKeep : Int) : List BC → Int → Int → Nat → Nat × Int
  | [], _, skipV, i => (i, skipV)
  | r :: rest, cur, skipV, i =>
    if toKeep < cur + (r.bytes.length : Int) then (i, skipV)
    else
      findNdxLoop toKeep rest (cur + r.bytes.length)
        (if skipV ≥ (r.bytes.length : Int) then skipV - r.bytes.length else skipV) (i + 1)

/-- Embeds the consumed-release loop of `Assembler.cleanSG`: each consumed
container that is (pointer-)identical to the head of the saved list or of
the queue is unlinked from it, and its pages are returned to the cache (the
live packet, id 0, releases nothing). -/
def releaseConsumed : List BC → HalfSt → PC → HalfSt × PC
  | [], h, pc => (h, pc)
  | r :: rest, h, pc =>
    let h1 :=
      if h.saved.head?.map (fun p => p.id) = some r.id then
        { h with saved := h.saved.drop 1 }
      else if h.queue.head?.map (fun p => p.id) = some r.id then
        { h with queue := h.queue.drop 1 }
      else h
    let rel : Int := if r.id = 0 then 0 else 1
    releaseConsumed rest { h1 with pages := h1.pages - rel } { pc with used := pc.used - rel }

/-- Embeds the keep loop of `Assembler.cleanSG`: convert each unconsumed
container into fresh saved pages.  The same `skip` value is passed to every
conversion, exactly as in the source. -/
def buildKept : List BC → Int → PC → List BC × PC
  | [], _, pc => ([], pc)
  | r :: rest, skipV, pc =>
    let m := mkPages pc (seqAdd r.seq skipV) r.seen r.startF r.endF true
      (r.bytes.drop skipV.toNat)
    let k := buildKept rest skipV m.2
    (m.1 ++ k.1, k.2)

/-- Embeds `Assembler.cleanSG`: release the consumed containers and convert
the `toKeep` tail into the new saved list.  The empty-`all` guard mirrors
the fact that the source is only invoked with a non-empty list. -/
def cleanSG (h : HalfSt) (pc : PC) (all : List BC) (toKeep : Int) : HalfSt × PC :=
  let nd :=
    if toKeep < 0 then (all.length, (0 : Int))
    else if all = [] then (1, toKeep)
    else findNdxLoop toKeep all 0 toKeep 0
  let rc := releaseConsumed (all.take nd.1) h pc
  let h1 := { rc.1 with saved := [] }
  let k := buildKept (all.drop nd.1) nd.2 rc.2
  ({ h1 with saved := k.1 }, k.2)

/-- Embeds `Assembler.closeHalfConnection` at the level of one half: set
`closed`, return every queued page to the cache (the source decrements
`half.pages` and the cache counter but does not clear `first`/`last`, so the
queue list is left in place), and — once both halves are closed — invoke
`ReassemblyComplete` on the stream, returning whether the connection should
be removed from the pool. -/
def closeHalfH (pol : Consumer) (h : HalfSt) (otherClosed : Bool) (st : StreamState)
    (pc : PC) : HalfSt × StreamState × PC × Bool :=
  let h1 := { h with closed := true,
                     pages := h.pages - h.queue.length }
  let pc1 := { pc with used := pc.used - h.queue.length }
  if otherClosed then
    (h1, { st with completeCalls := st.completeCalls + 1 }, pc1, pol.removeOnComplete)
  else (h1, st, pc1, false)

/-- Concatenation of the byte runs of a container list (what the consumer
reads out of `sg.all`). -/
def concatBytes (l : List BC) : List Nat := (l.map (fun p => p.bytes)).flatten

/-- Embeds `Assembler.sendToConnection`: build the scatter-gather object,
deliver it to the stream (recording the delivery and letting the consumer
choose `toKeep`), clean it up, and close the half when the last container
carried the end marker.  Returns the updated half, stream and cache, the
next sequence from `buildSG`, and the pool-removal verdict. -/
def sendToConnH (pol : Consumer) (h : HalfSt) (otherClosed : Bool) (st : StreamState)
    (pc : PC) (ret : List BC) (dir : Bool) : HalfSt × StreamState × PC × Int × Bool :=
  let b := buildSG h pc ret dir
  let sg := b.2.2.1
  let endF := b.2.2.2.1
  let nextS := b.2.2.2.2
  let d : Delivery := ⟨concatBytes sg.all, sg.skipN, sg.savedN, endF, dir⟩
  let st1 := { st with deliveries := st.deliveries ++ [d] }
  let tk := pol.toKeepF d
  let c := cleanSG b.1 b.2.1 sg.all tk
  if endF then
    let cl := closeHalfH pol c.1 otherClosed st1 c.2
    (cl.1, cl.2.1, cl.2.2.1, nextS, cl.2.2.2)
  else (c.1, st1, c.2, nextS, false)

/-- Embeds `Assembler.skipFlush`: close the half when nothing is queued,
otherwise pop the queue head, deliver it together with anything contiguous,
and advance `nextSeq` to the delivered end. -/
def skipFlushH (pol : Consumer) (h : HalfSt) (otherClosed : Bool) (st : StreamState)
    (pc : PC) (dir : Bool) : HalfSt × StreamState × PC :=
  if h.queue = [] then
    let cl := closeHalfH pol h otherClosed st pc
    (cl.1, cl.2.1, cl.2.2.1)
  else
    let a := addNextFromConn h []
    let s := sendToConnH pol a.1 otherClosed st pc a.2 dir
    let nextS := s.2.2.2.1
    let h1 := if nextS ≠ invalidSeq then { s.1 with nextSeq := nextS } else s.1
    (h1, s.2.1, s.2.2.1)

/-- Embeds the per-half body of `Assembler.AssembleWithContext` (everything
after the pool lookup): update `lastSeen`, run the acceptance gate, drop on
a closed half, record the ack, take the sequence decision, run
`handleBytes`, deliver through `sendToConnection` when the return list is
non-empty, and apply the FIN increment to a valid resulting `nextSeq`. -/
def assembleH (pol : Consumer) (opts : AsmOpts) (h : HalfSt) (otherClosed : Bool)
    (st : StreamState) (pc : PC) (dir : Bool) (sg : Seg) (ts : Nat) :
    HalfSt × StreamState × PC :=
  let h1 := if h.lastSeen < ts then { h with lastSeen := ts } else h
  let start0 := decide (h1.nextSeq = invalidSeq) && sg.syn
  let acc := pol.acceptF sg ts dir h1.nextSeq start0
  if !acc.1 then (h1, st, pc)
  else if h1.closed then (h1, st, pc)
  else
    let h2 := if sg.ackF then { h1 with ackSeq := sg.ackN } else h1
    let dec :=
      if h2.nextSeq = invalidSeq then
        if sg.syn then
          let sq := seqAdd sg.seqN 1
          ({ h2 with nextSeq := sq }, sq, false)
        else if acc.2 then ({ h2 with nextSeq := sg.seqN }, sg.seqN, false)
        else (h2, sg.seqN, true)
      else
        if seqDiff h2.nextSeq sg.seqN > 0 then (h2, sg.seqN, true)
        else (h2, sg.seqN, false)
    let hb := handleBytes opts dec.1 pc sg.payload dec.2.1 ts sg.syn (sg.rst || sg.fin) dec.2.2
    let ret := hb.2.2
    let snd :=
      if ret ≠ [] then
        let s := sendToConnH pol hb.1 otherClosed st hb.2.1 ret dir
        (s.1, s.2.1, s.2.2.1, s.2.2.2.1)
      else (hb.1, st, hb.2.1, invalidSeq)
    let h3 := snd.1
    let nextS := snd.2.2.2
    let h4 :=
      if nextS ≠ invalidSeq then
        if sg.fin then { h3 with nextSeq := seqAdd nextS 1 }
        else { h3 with nextSeq := nextS }
      else h3
    (h4, snd.2.1, snd.2.2.1)

/-- Modelled from the spec (§3 Connection): a connection record — two
half-connections and the stream shared by both. -/
structure Conn where
  c2s : HalfSt
  s2c : HalfSt
  stream : StreamState
deriving DecidableEq, Repr

/-- Select one half of a connection (`true` = client-to-server). -/
def getHalf (c : Conn) (dirC2S : Bool) : HalfSt :=
  if dirC2S then c.c2s else c.s2c

/-- Replace one half of a connection. -/
def setHalf (c : Conn) (dirC2S : Bool) (h : HalfSt) : Conn :=
  if dirC2S then { c with c2s := h } else { c with s2c := h }

/-- A fresh connection with an untouched stream. -/
def conn0 : Conn := ⟨half0, half0, ⟨[], 0⟩⟩

/-- The connection-level wrapper of `AssembleWithContext` for a segment
travelling in direction `dirC2S` (the pool lookup itself is outside the
analysed file). -/
def assembleWithContext (pol : Consumer) (opts : AsmOpts) (c : Conn) (pc : PC)
    (dirC2S : Bool) (sg : Seg) (ts : Nat) : Conn × PC :=
  let r := assembleH pol opts (getHalf c dirC2S) (getHalf c (!dirC2S)).closed
    c.stream pc dirC2S sg ts
  (setHalf { c with stream := r.2.1 } dirC2S r.1, r.2.2)

/-- Connection-level wrapper of `closeHalfConnection`. -/
def closeHalfConnection (pol : Consumer) (c : Conn) (pc : PC) (dirC2S : Bool) :
    Conn × PC × Bool :=
  let r := closeHalfH pol (getHalf c dirC2S) (getHalf c (!dirC2S)).closed c.stream pc
  (setHalf { c with stream := r.2.1 } dirC2S r.1, r.2.2.1, r.2.2.2)

/-- Connection-level wrapper of `skipFlush`. -/
def skipFlush (pol : Consumer) (c : Conn) (pc : PC) (dirC2S : Bool) : Conn × PC :=
  let r := skipFlushH pol (getHalf c dirC2S) (getHalf c (!dirC2S)).closed c.stream pc dirC2S
  (setHalf { c with stream := r.2.1 } dirC2S r.1, r.2.2)

/-- Embeds the `for !half.closed { skipFlush }` drain loop of
`Assembler.FlushAll`; the fuel passed by `flushAllConn` is shown sufficient
by `drainHalf_closes`. -/
def drainHalf (pol : Consumer) (dirC2S : Bool) : Nat → Conn → PC → Conn × PC
  | 0, c, pc => (c, pc)
  | n + 1, c, pc =>
    if (getHalf c dirC2S).closed then (c, pc)
    else
      let s := skipFlush pol c pc dirC2S
      drainHalf pol dirC2S n s.1 s.2

/-- Embeds the per-connection body of `Assembler.FlushAll`: drain the
server-to-client half, then the client-to-server half (the source order of
`[&conn.s2c, &conn.c2s]`), each followed by the source's residual
close-if-still-open check. -/
def flushAllConn (pol : Consumer) (c : Conn) (pc : PC) : Conn × PC :=
  let d1 := drainHalf pol false ((getHalf c false).queue.length + 1) c pc
  let e1 :=
    if (getHalf d1.1 false).closed then d1
    else
      let r := closeHalfConnection pol d1.1 d1.2 false
      (r.1, r.2.1)
  let d2 := drainHalf pol true ((getHalf e1.1 true).queue.length + 1) e1.1 e1.2
  if (getHalf d2.1 true).closed then d2
  else
    let r := closeHalfConnection pol d2.1 d2.2 true
    (r.1, r.2.1)

/-- Recursion over the connection snapshot taken by `FlushAll`. -/
def flushAllGo (pol : Consumer) : List Conn → PC → List Conn × PC
  | [], pc => ([], pc)
  | c :: r, pc =>
    let f := flushAllConn pol c pc
    let rest := flushAllGo pol r f.2
    (f.1 :: rest.1, rest.2)

/-- Embeds `Assembler.FlushAll`: snapshot the pool, record its size as the
return value, and drain every half of every connection. -/
def flushAll (pol : Consumer) (conns : List Conn) (pc : PC) : List Conn × PC × Nat :=
  let n := conns.length
  let g := flushAllGo pol conns pc
  (g.1, g.2, n)

/-- Feed a list of (direction, segment, timestamp) triples through
`assembleWithContext`. -/
def runSegs (pol : Consumer) (opts : AsmOpts) : List (Bool × Seg × Nat) → Conn → PC →
    Conn × PC
  | [], c, pc => (c, pc)
  | (d, sg, ts) :: r, c, pc =>
    let a := assembleWithContext pol opts c pc d sg ts
    runSegs pol opts r a.1 a.2

/-- The identity consumer: accepts every segment, keeps nothing
(`toKeep = -1`), allows pool removal on completion. -/
def polId : Consumer := ⟨fun _ _ _ _ s => (true, s), fun _ => -1, true⟩

/-- A consumer whose acceptance gate rejects every segment. -/
def polReject : Consumer := ⟨fun _ _ _ _ s => (false, s), fun _ => -1, true⟩

/-- Embeds the byte-level validity check of Go's `utf8.ValidString`
(standard-library collaborator used by `getServiceName`): RFC 3629 UTF-8 —
no surrogates, no overlong encodings, code points at most U+10FFFF. -/
def isCont (b : Nat) : Bool := decide (128 ≤ b ∧ b ≤ 191)

/-- Validity of a byte sequence as UTF-8, following Go's `utf8.ValidString`
acceptance ranges (leading byte classes C2-DF, E0, E1-EC, ED, EE-EF, F0,
F1-F3, F4 with their second-byte windows). -/
def validUtf8 : List Nat → Bool
  | [] => true
  | b :: r =>
    if b < 128 then validUtf8 r
    else if b < 194 then false
    else if b ≤ 223 then
      match r with
      | b1 :: r1 => isCont b1 && validUtf8 r1
      | [] => false
    else if b ≤ 239 then
      match r with
      | b1 :: b2 :: r2 =>
        let lo := if b = 224 then 160 else 128
        let hi := if b = 237 then 159 else 191
        decide (lo ≤ b1 ∧ b1 ≤ hi) && isCont b2 && validUtf8 r2
      | _ => false
    else if b ≤ 244 then
      match r with
      | b1 :: b2 :: b3 :: r3 =>
        let lo := if b = 240 then 144 else 128
        let hi := if b = 244 then 143 else 191
        decide (lo ≤ b1 ∧ b1 ≤ hi) && isCont b2 && isCont b3 && validUtf8 r3
      | _ => false
    else false

/-- Embeds `getServiceName` (tcpReader.go, encoder part): look the
destination port up in the service registry (the `resolvers` collaborator,
passed as a function); a non-empty answer wins, otherwise classify the
payload as `"utf8"` or `"unknown"`. -/
def getServiceName (registry : Nat → String) (data : List Nat) (dstPort : Nat) : String :=
  let s := registry dstPort
  if s ≠ "" then s
  else if validUtf8 data then "utf8" else "unknown"

/-- The service-class rule exactly as the spec words it (§4.7): "determined
by port lookup against a service registry; if unknown, fall back to `utf8`
if the payload is valid UTF-8, else `unknown`".  Stated independently of
`getServiceName` for the refinement comparison. -/
def serviceClassSpec (registry : Nat → String) (payload : List Nat) (dstPort : Nat) : String :=
  if registry dstPort = "" then
    (if validUtf8 payload then "utf8" else "unknown")
  else registry dstPort

/-- Modelled from the spec (§6): `path.Base` composed with `filepath.Clean`
on the flow identifier — the textual identifier with path separators
stripped (last slash-free component). -/
def pathBase (ident : String) : String :=
  ((ident.splitOn "/").filter (fun s => s ≠ "")).getLastD "."

/-- Observable effects of one `saveConnection` call: the credentials record
emitted by the first matching harvester, how many harvesters ran, the
directory created, the (path, bytes) append performed on the `.bin` file,
and the `savedConnections` statistics increment. -/
structure SaveEffect where
  credWritten : Option String
  harvestersRun : Nat
  dirCreated : Option (List String)
  fileAppended : Option (List String × List Nat)
  savedConnectionsInc : Nat
deriving DecidableEq, Repr

/-- Run the harvester chain against the raw bytes, stopping after the first
match, as the loop in `saveConnection` does.  Returns the first
credentials record and the number of harvesters invoked. -/
def runHarvesters : List (List Nat → Option String) → List Nat → Option String × Nat
  | [], _ => (none, 0)
  | f :: rest, raw =>
    match f raw with
    | some c => (some c, 1)
    | none =>
      let r := runHarvesters rest raw
      (r.1, r.2 + 1)

/-- Embeds `saveConnection` (tcpReader.go, encoder part): return nil at once
on an empty raw conversation; otherwise run the harvesters, derive the
service class from the raw bytes, create
`out/tcpConnections/serviceClass`, bump `savedConnections`, and append to
`ident.bin` — the bytes appended are the COLORED conversation ("save the
colored version" in the source), not the raw one.  File-system operations
are modelled as succeeding, so the returned error is the `nil` of the
normal path. -/
def saveConnection (harvesters : List (List Nat → Option String))
    (registry : Nat → String) (outDir : String) (raw colored : List Nat)
    (ident : String) (dstPort : Nat) : SaveEffect × Option String :=
  if raw = [] then (⟨none, 0, none, none, 0⟩, none)
  else
    let hv := runHarvesters harvesters raw
    let typ := getServiceName registry raw dstPort
    let root := [outDir, "tcpConnections", typ]
    let base := pathBase ident ++ ".bin"
    (⟨hv.1, hv.2, some root, some (root ++ [base], colored), 1⟩, none)

/-- Reader-side state of one `tcpReader` (encoder part): direction flag and
the saved marker. -/
structure ReaderSt where
  isClient : Bool
  saved : Bool
deriving DecidableEq, Repr

/-- The shared parent `tcpConnection` state visible to `Cleanup`: the two
conversation buffers, the flow identifier, the destination port of the
transport flow and the `last` flag recording that one direction already
closed. -/
structure ParentSt where
  conversationRaw : List Nat
  conversationColored : List Nat
  ident : String
  dstPort : Nat
  lastFlag : Bool
deriving DecidableEq, Repr

/-- Factory coordination state: the outstanding wait-group count and the
`numActive` reader counter. -/
structure FactorySt where
  wgPending : Int
  numActive : Int
deriving DecidableEq, Repr

/-- Observable effects of one `Cleanup` call: the `saveConnection` effect of
the client side (none for the server side), and how many `wg.Done` calls
and `numActive` decrements this invocation performed. -/
structure CleanupEffect where
  saveEff : Option SaveEffect
  wgDoneCalls : Nat
  numActiveDecs : Nat
deriving DecidableEq, Repr

/-- Embeds `tcpReader.Cleanup` (tcpReader.go, encoder part): the client-side
reader saves the conversation and marks itself saved; then the first
direction to reach cleanup signals the wait group, decrements `numActive`
and sets `parent.last`, while the second direction (the combined-analysis
path) signals the wait group and decrements `numActive` as well. -/
def cleanup (harvesters : List (List Nat → Option String)) (registry : Nat → String)
    (outDir : String) (h : ReaderSt) (parent : ParentSt) (f : FactorySt) :
    ReaderSt × ParentSt × FactorySt × CleanupEffect :=
  let sv :=
    if h.isClient then
      some (saveConnection harvesters registry outDir parent.conversationRaw
        parent.conversationColored parent.ident parent.dstPort).1
    else none
  let h1 := if h.isClient then { h with saved := true } else h
  if !parent.lastFlag then
    (h1, { parent with lastFlag := true },
     { f with wgPending := f.wgPending - 1, numActive := f.numActive - 1 },
     ⟨sv, 1, 1⟩)
  else
    (h1, parent,
     { f with wgPending := f.wgPending - 1, numActive := f.numActive - 1 },
     ⟨sv, 1, 1⟩)

/-! Concrete states and segments used by the scenario theorems below. -/

/-- A fresh page cache (ids start at 1; id 0 is the live packet). -/
def pc0 : PC := ⟨0, 1⟩

/-- SYN, sequence 1000, no payload. -/
def segSyn : Seg := ⟨1000, 0, true, false, false, false, []⟩

/-- Data segment "ABCD" at sequence 1001. -/
def segABCD : Seg := ⟨1001, 0, false, false, false, false, [65, 66, 67, 68]⟩

/-- Data segment "AB" at sequence 1001. -/
def segAB : Seg := ⟨1001, 0, false, false, false, false, [65, 66]⟩

/-- Data segment "CD" at sequence 1003. -/
def segCD : Seg := ⟨1003, 0, false, false, false, false, [67, 68]⟩

/-- FIN, sequence 1005, no payload (in order after "AB" and "CD"). -/
def segFin : Seg := ⟨1005, 0, false, false, true, false, []⟩

/-- FIN, sequence 1010, no payload — out of order (a gap separates it from
`nextSeq = 1001`), so it is routed to the queueing path. -/
def segFinGap : Seg := ⟨1010, 0, false, false, true, false, []⟩

/-- The same out-of-order segment as `segFinGap` without the FIN flag. -/
def segNoFinGap : Seg := ⟨1010, 0, false, false, false, false, []⟩

/-- A queued page covering [10, 14) with bytes "WXYZ". -/
def curW : BC := ⟨10, [87, 88, 89, 90], 0, false, false, true, 1⟩

/-- A half-connection whose queue holds exactly `curW`. -/
def halfQ : HalfSt := { half0 with queue := [curW], pages := 1 }

/-- A page cache in which `curW` is the only live page. -/
def pcQ : PC := ⟨1, 2⟩

/-- A live packet covering [8, 12) with bytes "abcd" — it extends before
`curW`'s head only. -/
def lpNew : LP := ⟨[97, 98, 99, 100], 8, 7, false, false⟩

/-- A saved page used by `connC3` (a connection whose client-to-server half
has one queued page and one saved page while the server-to-client half is
still open). -/
def savedPage : BC := ⟨20, [1, 2], 0, false, false, true, 5⟩

/-- A queued page used by `connC3`. -/
def queuedPage : BC := ⟨30, [3], 0, false, false, true, 6⟩

/-- The half-connection of `connC3` holding both pages. -/
def halfC3 : HalfSt := { half0 with saved := [savedPage], queue := [queuedPage], pages := 2 }

/-- See `connC3`. -/
def connC3 : Conn := ⟨halfC3, half0, ⟨[], 0⟩⟩

/-- A service registry with no entry for any port. -/
def regEmpty : Nat → String := fun _ => ""

/-- The client-side reader before cleanup. -/
def readerC : ReaderSt := ⟨true, false⟩

/-- The server-side reader before cleanup. -/
def readerS : ReaderSt := ⟨false, false⟩

/-- A parent connection whose raw conversation is the single byte "A" but
whose colored conversation carries an extra escape byte. -/
def parentC : ParentSt := ⟨[65], [27, 65], "flowid", 80, false⟩

/-- A factory with two outstanding reader tasks. -/
def factory0 : FactorySt := ⟨2, 2⟩

/-! Helper lemmas about the sequence arithmetic and the queue footprint of
the assembler operations. -/

/-- Sequence addition is plain addition while no wraparound occurs. -/
theorem seqAdd_small (a n : Int) (h0 : 0 ≤ a + n) (h1 : a + n < 4294967296) :
    seqAdd a n = a + n := by
  unfold seqAdd
  omega

/-- Sequence difference is plain subtraction while both points are within
half the sequence space of each other. -/
theorem seqDiff_small (a b : Int) (h0 : -2147483648 < b - a) (h1 : b - a < 2147483648) :
    seqDiff a b = b - a := by
  unfold seqDiff
  split <;> omega

/-- A byte run that fits one page converts into a single page. -/
theorem mkPages_single (pc : PC) (sq : Int) (seen : Nat) (sF eF fp : Bool)
    (l : List Nat) (hne : l ≠ []) (hle : l.length ≤ pageBytes) :
    mkPages pc sq seen sF eF fp l =
      ([⟨sq, l, seen, sF && fp, eF, fp, pc.nextId⟩], ⟨pc.used + 1, pc.nextId + 1⟩) := by
  rcases l with _ | ⟨b, bs⟩
  · exact absurd rfl hne
  · unfold mkPages
    rw [List.length_cons]
    unfold mkPagesGo
    rw [if_neg hne]
    dsimp only
    rw [List.take_of_length_le hle, List.drop_eq_nil_of_le hle]
    unfold mkPagesGo
    rw [if_pos rfl]
    simp

/-- The contiguous-pop loop never lengthens the queue. -/
theorem addContigLoop_queue_le (q ret : List BC) (l : Int) :
    (addContigLoop q ret l).1.length ≤ q.length := by
  induction q generalizing ret l with
  | nil => simp [addContigLoop]
  | cons p rest ih =>
    unfold addContigLoop
    split
    · exact le_trans (ih _ _) (Nat.le_succ _)
    · exact le_refl _

/-- `addPending` touches only the saved list, never the queue. -/
theorem addPending_queue (h : HalfSt) (pc : PC) (ret : List BC) (fs : Int) :
    (addPending h pc ret fs).1.queue = h.queue := by
  unfold addPending
  split
  · rfl
  · dsimp only
    split <;> rfl

/-- `addContiguous` never lengthens the queue. -/
theorem addContiguous_queue_le (h : HalfSt) (ret : List BC) (l : Int) :
    (addContiguous h ret l).1.queue.length ≤ h.queue.length := by
  unfold addContiguous
  split
  · exact le_refl _
  · exact addContigLoop_queue_le _ _ _

/-- `buildSG` never lengthens the queue. -/
theorem buildSG_queue_le (h : HalfSt) (pc : PC) (ret : List BC) (d : Bool) :
    (buildSG h pc ret d).1.queue.length ≤ h.queue.length := by
  unfold buildSG
  split
  · exact le_refl _
  · dsimp only
    refine le_trans (addContiguous_queue_le _ _ _) ?_
    rw [addPending_queue]

/-- The consumed-release loop of `cleanSG` never lengthens the queue. -/
theorem releaseConsumed_queue_le (l : List BC) (h : HalfSt) (pc : PC) :
    (releaseConsumed l h pc).1.queue.length ≤ h.queue.length := by
  induction l generalizing h pc with
  | nil => exact le_refl _
  | cons r rest ih =>
    unfold releaseConsumed
    dsimp only
    refine le_trans (ih _ _) ?_
    split
    · exact le_refl _
    · split
      · simp
      · exact le_refl _

/-- `cleanSG` never lengthens the queue. -/
theorem cleanSG_queue_le (h : HalfSt) (pc : PC) (all : List BC) (tk : Int) :
    (cleanSG h pc all tk).1.queue.length ≤ h.queue.length := by
  unfold cleanSG
  dsimp only
  exact releaseConsumed_queue_le _ _ _

/-- State summary of `closeHalfH`: the half is closed, the queue list and the
saved list are left in place, the pages counter and the cache counter drop
by the number of queued pages, and the completion callback fires exactly
when the other half was already closed. -/
theorem closeHalfH_spec (pol : Consumer) (h : HalfSt) (oc : Bool) (st : StreamState)
    (pc : PC) :
    (closeHalfH pol h oc st pc).1.closed = true ∧
    (closeHalfH pol h oc st pc).1.queue = h.queue ∧
    (closeHalfH pol h oc st pc).1.saved = h.saved ∧
    (closeHalfH pol h oc st pc).1.pages = h.pages - h.queue.length ∧
    (closeHalfH pol h oc st pc).2.2.1.used = pc.used - h.queue.length ∧
    (closeHalfH pol h oc st pc).2.1.completeCalls
      = st.completeCalls + (if oc then 1 else 0) ∧
    (closeHalfH pol h oc st pc).2.1.deliveries = st.deliveries := by
  unfold closeHalfH
  split <;> simp_all

/-- `sendToConnH` never lengthens the queue. -/
theorem sendToConnH_queue_le (pol : Consumer) (h : HalfSt) (oc : Bool)
    (st : StreamState) (pc : PC) (ret : List BC) (d : Bool) :
    (sendToConnH pol h oc st pc ret d).1.queue.length ≤ h.queue.length := by
  unfold sendToConnH
  dsimp only
  split
  · refine le_trans ?_ (buildSG_queue_le h pc ret d)
    rw [(closeHalfH_spec _ _ _ _ _).2.1]
    exact cleanSG_queue_le _ _ _ _
  · exact le_trans (cleanSG_queue_le _ _ _ _) (buildSG_queue_le h pc ret d)

/-- `skipFlush` on an empty queue closes the half. -/
theorem skipFlushH_closed_of_nil (pol : Consumer) (h : HalfSt) (oc : Bool)
    (st : StreamState) (pc : PC) (d : Bool) (hq : h.queue = []) :
    (skipFlushH pol h oc st pc d).1.closed = true := by
  unfold skipFlushH
  rw [if_pos hq]
  exact (closeHalfH_spec pol h oc st pc).1

/-- `skipFlush` on a non-empty queue strictly shrinks it. -/
theorem skipFlushH_progress (pol : Consumer) (h : HalfSt) (oc : Bool)
    (st : StreamState) (pc : PC) (d : Bool) (hq : h.queue ≠ []) :
    (skipFlushH pol h oc st pc d).1.queue.length < h.queue.length := by
  unfold skipFlushH
  rw [if_neg hq]
  dsimp only
  have ha : (addNextFromConn h []).1.queue.length + 1 = h.queue.length := by
    unfold addNextFromConn
    rcases hque : h.queue with _ | ⟨p, rest⟩
    · exact absurd hque hq
    · simp
  have hle := sendToConnH_queue_le pol (addNextFromConn h []).1 oc st pc
    (addNextFromConn h []).2 d
  split
  · dsimp only
    omega
  · omega

/-- Reading back the half just written. -/
theorem getHalf_setHalf_same (c : Conn) (d : Bool) (h : HalfSt) :
    getHalf (setHalf c d h) d = h := by
  cases d <;> rfl

/-- Writing one half leaves the other readable unchanged. -/
theorem getHalf_setHalf_ne (c : Conn) (d d' : Bool) (h : HalfSt) (hne : d' ≠ d) :
    getHalf (setHalf c d h) d' = getHalf c d' := by
  cases d <;> cases d' <;> first | rfl | exact absurd rfl hne

/-- Replacing the stream does not change either half. -/
theorem getHalf_stream (c : Conn) (st : StreamState) (d : Bool) :
    getHalf { c with stream := st } d = getHalf c d := by
  cases d <;> rfl

/-- The half `skipFlush` operates on is exactly the `skipFlushH` result. -/
theorem skipFlush_getHalf (pol : Consumer) (c : Conn) (pc : PC) (d : Bool) :
    getHalf (skipFlush pol c pc d).1 d =
      (skipFlushH pol (getHalf c d) (getHalf c (!d)).closed c.stream pc d).1 := by
  unfold skipFlush
  dsimp only
  rw [getHalf_setHalf_same]

/-- `skipFlush` leaves the other half untouched. -/
theorem skipFlush_other (pol : Consumer) (c : Conn) (pc : PC) (d d' : Bool)
    (hne : d' ≠ d) :
    getHalf (skipFlush pol c pc d).1 d' = getHalf c d' := by
  unfold skipFlush
  dsimp only
  rw [getHalf_setHalf_ne _ _ _ _ hne, getHalf_stream]

/-- The drain loop of `FlushAll` leaves the other half untouched. -/
theorem drainHalf_other (pol : Consumer) (d : Bool) (n : Nat) (c : Conn) (pc : PC)
    (d' : Bool) (hne : d' ≠ d) :
    getHalf (drainHalf pol d n c pc).1 d' = getHalf c d' := by
  induction n generalizing c pc with
  | zero => rfl
  | succ n ih =>
    unfold drainHalf
    split
    · rfl
    · dsimp only
      rw [ih, skipFlush_other _ _ _ _ _ hne]

/-- A closed half stays closed through the drain loop. -/
theorem drainHalf_closed_stable (pol : Consumer) (d : Bool) (n : Nat) (c : Conn)
    (pc : PC) (h : (getHalf c d).closed = true) :
    (getHalf (drainHalf pol d n c pc).1 d).closed = true := by
  cases n with
  | zero => exact h
  | succ n =>
    unfold drainHalf
    rw [if_pos h]
    exact h

/-- With fuel exceeding the queue length, the drain loop of `FlushAll`
always reaches a closed half: every `skipFlush` either closes the half
(empty queue) or strictly shrinks its queue. -/
theorem drainHalf_closes (pol : Consumer) (d : Bool) :
    ∀ (n : Nat) (c : Conn) (pc : PC), (getHalf c d).queue.length < n →
      (getHalf (drainHalf pol d n c pc).1 d).closed = true := by
  intro n
  induction n with
  | zero => intro c pc h; omega
  | succ n ih =>
    intro c pc hlen
    unfold drainHalf
    split
    · next hcl => exact hcl
    · next hcl =>
      dsimp only
      by_cases hq : (getHalf c d).queue = []
      · refine drainHalf_closed_stable pol d n _ _ ?_
        rw [skipFlush_getHalf]
        exact skipFlushH_closed_of_nil _ _ _ _ _ _ hq
      · refine ih _ _ ?_
        rw [skipFlush_getHalf]
        have := skipFlushH_progress pol (getHalf c d) (getHalf c (!d)).closed
          c.stream pc d hq
        omega

/-- After `flushAllConn` both halves of the connection are closed. -/
theorem flushAllConn_closed (pol : Consumer) (c : Conn) (pc : PC) :
    (flushAllConn pol c pc).1.s2c.closed = true ∧
    (flushAllConn pol c pc).1.c2s.closed = true := by
  unfold flushAllConn
  dsimp only
  have h1 : (getHalf (drainHalf pol false ((getHalf c false).queue.length + 1) c pc).1
      false).closed = true :=
    drainHalf_closes pol false _ c pc (by omega)
  rw [if_pos h1]
  have h2 : (getHalf (drainHalf pol true
      ((getHalf (drainHalf pol false ((getHalf c false).queue.length + 1) c pc).1
        true).queue.length + 1)
      (drainHalf pol false ((getHalf c false).queue.length + 1) c pc).1
      (drainHalf pol false ((getHalf c false).queue.length + 1) c pc).2).1 true).closed
      = true :=
    drainHalf_closes pol true _ _ _ (by omega)
  rw [if_pos h2]
  refine ⟨?_, h2⟩
  have := drainHalf_other pol true
    ((getHalf (drainHalf pol false ((getHalf c false).queue.length + 1) c pc).1
      true).queue.length + 1)
    (drainHalf pol false ((getHalf c false).queue.length + 1) c pc).1
    (drainHalf pol false ((getHalf c false).queue.length + 1) c pc).2
    false (by simp)
  rw [show ∀ x : Conn, x.s2c = getHalf x false from fun _ => rfl]
  rw [this]
  exact h1

/-- Every connection produced by the `FlushAll` recursion has both halves
closed. -/
theorem flushAllGo_closed (pol : Consumer) :
    ∀ (conns : List Conn) (pc : PC), ∀ c ∈ (flushAllGo pol conns pc).1,
      c.s2c.closed = true ∧ c.c2s.closed = true := by
  intro conns
  induction conns with
  | nil =>
    intro pc c hc
    simp [flushAllGo] at hc
  | cons a rest ih =>
    intro pc c hc
    unfold flushAllGo at hc
    dsimp only at hc
    rcases List.mem_cons.mp hc with h | h
    · subst h
      exact flushAllConn_closed pol a pc
    · exact ih _ _ h

/-- Writing a half never changes the stream. -/
theorem stream_setHalf (c : Conn) (d : Bool) (h : HalfSt) :
    (setHalf c d h).stream = c.stream := by
  cases d <;> rfl

/-! Claim theorems. -/

/-- C2: duplicate delivery is idempotent — after SYN seq=1000 and data
seq=1001 "ABCD" (delivered), a second identical data seq=1001 "ABCD"
causes no further delivery to the consumer (the delivery trace is the same
as for a single submission, which does contain the "ABCD" delivery), and
the duplicate is absorbed as overlap with `overlapBytes` incremented
by 4. -/
theorem c2_duplicate_idempotent :
    (runSegs polId opts0 [(true, segSyn, 1), (true, segABCD, 2), (true, segABCD, 3)]
        conn0 pc0).1.stream.deliveries =
      (runSegs polId opts0 [(true, segSyn, 1), (true, segABCD, 2)]
        conn0 pc0).1.stream.deliveries ∧
    (∃ dl ∈ (runSegs polId opts0 [(true, segSyn, 1), (true, segABCD, 2)]
        conn0 pc0).1.stream.deliveries, dl.bytes = [65, 66, 67, 68]) ∧
    (runSegs polId opts0 [(true, segSyn, 1), (true, segABCD, 2), (true, segABCD, 3)]
        conn0 pc0).1.c2s.overlapBytes =
      (runSegs polId opts0 [(true, segSyn, 1), (true, segABCD, 2)]
        conn0 pc0).1.c2s.overlapBytes + 4 ∧
    (runSegs polId opts0 [(true, segSyn, 1), (true, segABCD, 2)]
        conn0 pc0).1.c2s.overlapBytes = 0 := by
  decide

/-- C4 (counterexample): an out-of-order FIN (SYN seq=1000, then FIN
seq=1010 against `nextSeq = 1001`) is processed and accepted, yet leaves
`nextSeq` at 1001 — exactly the value the same call without the FIN flag
leaves — so `nextSeq` is NOT one greater than it would otherwise be. -/
theorem c4_counterexample :
    (runSegs polId opts0 [(true, segSyn, 1), (true, segFinGap, 2)]
        conn0 pc0).1.c2s.nextSeq = 1001 ∧
    (runSegs polId opts0 [(true, segSyn, 1), (true, segNoFinGap, 2)]
        conn0 pc0).1.c2s.nextSeq = 1001 ∧
    ¬ ((1001 : Int) = 1001 + 1) := by
  decide

/-- C4 (amended): the FIN consumes one sequence number only when the call
ends with a valid delivered `nextSeq` (the segment was delivered, not
queued); in particular the in-order scenario SYN seq=1000, data seq=1001
"AB", data seq=1003 "CD", FIN seq=1005 ends with `nextSeq = 1006` and an
end-marked final delivery. -/
theorem c4_fin_in_order :
    (runSegs polId opts0
        [(true, segSyn, 1), (true, segAB, 2), (true, segCD, 3), (true, segFin, 4)]
        conn0 pc0).1.c2s.nextSeq = 1006 ∧
    ((runSegs polId opts0
        [(true, segSyn, 1), (true, segAB, 2), (true, segCD, 3), (true, segFin, 4)]
        conn0 pc0).1.stream.deliveries.getLastD ⟨[], 0, 0, false, false⟩).endF = true := by
  decide

/-- C3 (counterexample): closing the client-to-server half of a connection
whose other half is still open leaves `closed = true` with a non-empty
saved list, a non-empty queue reference, and no `reassemblyComplete`
callback delivered — refuting the claimed invariant right after
`closeHalfConnection`. -/
theorem c3_counterexample :
    (closeHalfConnection polId connC3 pc0 true).1.c2s.closed = true ∧
    (closeHalfConnection polId connC3 pc0 true).1.c2s.saved ≠ [] ∧
    (closeHalfConnection polId connC3 pc0 true).1.c2s.queue ≠ [] ∧
    (closeHalfConnection polId connC3 pc0 true).1.stream.completeCalls = 0 := by
  decide

/-- C3 (amended): after `closeHalfConnection` the half's closed flag is
true and its queued pages have been returned to the page cache (the pages
counter and the cache counter drop by the queue length), but the
`first`/`last` queue references and the saved list are left in place, the
other half is untouched, and `reassemblyComplete` is invoked exactly when
the other half was already closed. -/
theorem c3_closeHalfConnection_state (pol : Consumer) (c : Conn) (pc : PC) (d : Bool) :
    (getHalf (closeHalfConnection pol c pc d).1 d).closed = true ∧
    (getHalf (closeHalfConnection pol c pc d).1 d).queue = (getHalf c d).queue ∧
    (getHalf (closeHalfConnection pol c pc d).1 d).saved = (getHalf c d).saved ∧
    (getHalf (closeHalfConnection pol c pc d).1 d).pages
      = (getHalf c d).pages - (getHalf c d).queue.length ∧
    (closeHalfConnection pol c pc d).2.1.used
      = pc.used - (getHalf c d).queue.length ∧
    (closeHalfConnection pol c pc d).1.stream.completeCalls
      = c.stream.completeCalls + (if (getHalf c (!d)).closed then 1 else 0) ∧
    getHalf (closeHalfConnection pol c pc d).1 (!d) = getHalf c (!d) := by
  have hs := closeHalfH_spec pol (getHalf c d) ((getHalf c (!d)).closed) c.stream pc
  unfold closeHalfConnection
  dsimp only
  rw [getHalf_setHalf_same, getHalf_setHalf_ne _ _ _ _ (by cases d <;> simp),
    getHalf_stream, stream_setHalf]
  exact ⟨hs.1, hs.2.1, hs.2.2.1, hs.2.2.2.1, hs.2.2.2.2.1, hs.2.2.2.2.2.1, rfl⟩

/-- C5 (counterexample): a rejected segment still advances `lastSeen` — the
rejecting acceptance callback runs after the `lastSeen` update, so the
half-connection is NOT left entirely unchanged. -/
theorem c5_counterexample :
    (assembleWithContext polReject opts0 conn0 pc0 true segABCD 5).1.c2s.lastSeen = 5 ∧
    conn0.c2s.lastSeen = 0 ∧ (5 : Nat) ≠ 0 := by
  decide

/-- C5 (amended): when the stream's acceptance callback rejects a segment,
`AssembleWithContext` drops it and the only state change is the `lastSeen`
update performed before the acceptance check: the result is exactly the
input connection with that half's `lastSeen` advanced to the capture
timestamp when it is strictly greater, and an unchanged page cache. -/
theorem c5_reject_lastSeen_only (pol : Consumer) (opts : AsmOpts) (c : Conn) (pc : PC)
    (d : Bool) (sg : Seg) (ts : Nat)
    (hrej : (pol.acceptF sg ts d (getHalf c d).nextSeq
      (decide ((getHalf c d).nextSeq = invalidSeq) && sg.syn)).1 = false) :
    assembleWithContext pol opts c pc d sg ts =
      (setHalf c d { getHalf c d with lastSeen :=
          if (getHalf c d).lastSeen < ts then ts else (getHalf c d).lastSeen }, pc) := by
  unfold assembleWithContext assembleH
  by_cases hlt : (getHalf c d).lastSeen < ts
  · simp only [if_pos hlt]
    rw [hrej]
    rfl
  · simp only [if_neg hlt]
    rw [hrej]
    rfl

/-- C5 witness: the rejecting consumer at a concrete input. -/
theorem c5_witness :
    (polReject.acceptF segABCD 5 true (getHalf conn0 true).nextSeq
      (decide ((getHalf conn0 true).nextSeq = invalidSeq) && segABCD.syn)).1 = false ∧
    assembleWithContext polReject opts0 conn0 pc0 true segABCD 5 =
      (setHalf conn0 true { getHalf conn0 true with lastSeen :=
          if (getHalf conn0 true).lastSeen < 5 then 5
          else (getHalf conn0 true).lastSeen }, pc0) :=
  ⟨by decide, c5_reject_lastSeen_only polReject opts0 conn0 pc0 true segABCD 5 (by decide)⟩

/-- C6: `FlushAll` drains every connection in the snapshot by repeated
skip-flushing until each half is closed; afterwards both halves of every
connection are closed and the returned count equals the number of
connections at the time of the call. -/
theorem c6_flushAll_drains (pol : Consumer) (conns : List Conn) (pc : PC) :
    (flushAll pol conns pc).2.2 = conns.length ∧
    ∀ c ∈ (flushAll pol conns pc).1, c.s2c.closed = true ∧ c.c2s.closed = true := by
  refine ⟨rfl, ?_⟩
  intro c hc
  exact flushAllGo_closed pol conns pc c hc

/-- C6 witness: draining a one-connection pool holding a queued and a saved
page. -/
theorem c6_witness :
    (flushAll polId [connC3] pc0).2.2 = 1 ∧
    (((flushAll polId [connC3] pc0).1.headD conn0).s2c.closed = true ∧
     ((flushAll polId [connC3] pc0).1.headD conn0).c2s.closed = true) :=
  ⟨(c6_flushAll_drains polId [connC3] pc0).1,
   (c6_flushAll_drains polId [connC3] pc0).2
     ((flushAll polId [connC3] pc0).1.headD conn0) (by decide)⟩

/-- C1 (counterexample): new range [8, 12) "abcd" against the single queued
page [10, 14) "WXYZ" satisfies the claimed guard (start ≤ 10 ∧ 10 < 12 < 14),
yet after `checkOverlap` the queued page has LOST its first two bytes (it
now covers [12, 14) with "YZ") and the new range was queued in full — no
queued page keeps the original "WXYZ" bytes, refuting "the queued page cur
keeps all of its bytes unchanged". -/
theorem c1_counterexample :
    ((checkOverlap halfQ pcQ lpNew true).1.queue.map fun p => (p.seq, p.bytes)) =
      [(8, [97, 98, 99, 100]), (12, [89, 90])] ∧
    ¬ ∃ p ∈ (checkOverlap halfQ pcQ lpNew true).1.queue, p.bytes = curW.bytes := by
  decide

/-- Traversal behaviour behind the amended C1: on a singleton queue whose
page starts strictly inside the new range and ends strictly after it, the
loop takes case 4 — the page's overlapped head bytes are dropped, its
sequence advances to the range end, and the new bytes survive in full. -/
theorem coLoop_case4_single (cur : BC) (newB : List Nat) (start : Int)
    (h0 : 0 ≤ start) (h1 : start < cur.seq)
    (h2 : cur.seq < start + (newB.length : Int))
    (h3 : start + (newB.length : Int) < cur.seq + (cur.bytes.length : Int))
    (h4 : cur.seq + (cur.bytes.length : Int) < 2147483648) :
    coLoop start (start + (newB.length : Int)) [cur] newB [] ⟨0, 0, 0⟩ =
      ([], [{ cur with seq := start + (newB.length : Int),
                       bytes := cur.bytes.drop
                         (start + (newB.length : Int) - cur.seq).toNat }],
       newB, ⟨0, 0, 0⟩) := by
  have cAdd : seqAdd cur.seq (cur.bytes.length : Int) = cur.seq + cur.bytes.length :=
    seqAdd_small _ _ (by omega) (by omega)
  have d5 : seqDiff (start + (newB.length : Int)) cur.seq
      = cur.seq - (start + newB.length) :=
    seqDiff_small _ _ (by omega) (by omega)
  have d1 : seqDiff start (cur.seq + (cur.bytes.length : Int))
      = cur.seq + cur.bytes.length - start :=
    seqDiff_small _ _ (by omega) (by omega)
  have dSeq : seqDiff start cur.seq = cur.seq - start :=
    seqDiff_small _ _ (by omega) (by omega)
  have dEeq : seqDiff (start + (newB.length : Int)) (cur.seq + (cur.bytes.length : Int))
      = cur.seq + cur.bytes.length - (start + newB.length) :=
    seqDiff_small _ _ (by omega) (by omega)
  have hdrop : (-(seqDiff (start + (newB.length : Int)) cur.seq)).toNat
      = (start + (newB.length : Int) - cur.seq).toNat := by
    rw [d5]
    omega
  have hcurSeq : seqAdd cur.seq
      (((start + (newB.length : Int) - cur.seq).toNat : Int))
      = start + (newB.length : Int) := by
    rw [Int.toNat_of_nonneg (by omega), seqAdd_small _ _ (by omega) (by omega)]
    omega
  have n5 : ¬ seqDiff (start + (newB.length : Int)) cur.seq > 0 := by
    rw [d5]
    omega
  have n1 : ¬ seqDiff start (cur.seq + (cur.bytes.length : Int)) ≤ 0 := by
    rw [d1]
    omega
  have n3 : ¬ (seqDiff (start + (newB.length : Int))
        (cur.seq + (cur.bytes.length : Int)) ≤ 0 ∧
      seqDiff start cur.seq ≥ 0) := by
    simp only [dEeq, dSeq]
    omega
  have n2 : ¬ (seqDiff (start + (newB.length : Int))
        (cur.seq + (cur.bytes.length : Int)) < 0 ∧
      seqDiff start (cur.seq + (cur.bytes.length : Int)) > 0) := by
    simp only [dEeq, d1]
    omega
  have y4 : seqDiff start cur.seq > 0 ∧
      seqDiff (start + (newB.length : Int)) cur.seq < 0 :=
    ⟨by rw [dSeq]; omega, by rw [d5]; omega⟩
  rw [coLoop]
  dsimp only
  rw [cAdd]
  rw [if_neg n5, if_neg n1, if_neg n3, if_neg n2, if_pos y4]
  rw [hdrop, hcurSeq]
  rw [coLoop]

/-- C1 (amended): in `checkOverlap`, when the new range
[start, start + |newB|) extends before the queued page `cur` at its head
only — strictly: start < cur.seq < start + |newB| < cur.seq + |cur.bytes|,
within the unwrapped window — it is CUR that is truncated, not the new
range: cur's first (end − cur.seq) bytes are dropped and its sequence
advances to the new range's end, while the new bytes are queued in full
before the trimmed page; the overlap counters do not change and the whole
new range is counted as queued. -/
theorem c1_checkOverlap_head_overlap (hh : HalfSt) (pc : PC) (cur : BC)
    (newB : List Nat) (start : Int) (sn : Nat) (sF eF : Bool)
    (hq : hh.queue = [cur])
    (h0 : 0 ≤ start) (h1 : start < cur.seq)
    (h2 : cur.seq < start + (newB.length : Int))
    (h3 : start + (newB.length : Int) < cur.seq + (cur.bytes.length : Int))
    (h4 : cur.seq + (cur.bytes.length : Int) < 2147483648)
    (h5 : newB.length ≤ pageBytes) :
    (checkOverlap hh pc ⟨newB, start, sn, sF, eF⟩ true).1.queue =
      [⟨start, newB, sn, sF, eF, true, pc.nextId⟩,
       { cur with seq := start + (newB.length : Int),
                  bytes := cur.bytes.drop (start + (newB.length : Int) - cur.seq).toNat }] ∧
    (checkOverlap hh pc ⟨newB, start, sn, sF, eF⟩ true).1.overlapBytes
      = hh.overlapBytes ∧
    (checkOverlap hh pc ⟨newB, start, sn, sF, eF⟩ true).1.queuedBytes
      = hh.queuedBytes + newB.length := by
  have hlen0 : 0 < (newB.length : Int) := by omega
  have hne : newB ≠ [] := by
    intro hE
    rw [hE] at hlen0
    simp at hlen0
  have eAdd : seqAdd start (newB.length : Int) = start + newB.length :=
    seqAdd_small _ _ (by omega) (by omega)
  unfold checkOverlap
  rw [hq, List.reverse_singleton]
  dsimp only
  rw [eAdd, coLoop_case4_single cur newB start h0 h1 h2 h3 h4]
  dsimp only
  rw [if_pos ⟨hne, rfl⟩]
  rw [mkPages_single _ _ _ _ _ _ _ hne h5]
  dsimp only
  refine ⟨?_, by omega, by omega⟩
  simp

/-- C1 witness: the amended head-overlap rule at the concrete input of the
counterexample. -/
theorem c1_witness :
    (halfQ.queue = [curW] ∧ (0 : Int) ≤ 8 ∧ (8 : Int) < curW.seq ∧
      curW.seq < 8 + (([97, 98, 99, 100] : List Nat).length : Int) ∧
      8 + (([97, 98, 99, 100] : List Nat).length : Int)
        < curW.seq + (curW.bytes.length : Int) ∧
      curW.seq + (curW.bytes.length : Int) < 2147483648 ∧
      ([97, 98, 99, 100] : List Nat).length ≤ pageBytes) ∧
    (checkOverlap halfQ pcQ ⟨[97, 98, 99, 100], 8, 7, false, false⟩ true).1.queue =
      [⟨8, [97, 98, 99, 100], 7, false, false, true, pcQ.nextId⟩,
       { curW with seq := 8 + (([97, 98, 99, 100] : List Nat).length : Int),
                   bytes := curW.bytes.drop
                     (8 + (([97, 98, 99, 100] : List Nat).length : Int) - curW.seq).toNat }] :=
  ⟨⟨rfl, by decide, by decide, by decide, by decide, by decide, by decide⟩,
   (c1_checkOverlap_head_overlap halfQ pcQ curW [97, 98, 99, 100] 8 7 false false rfl
     (by decide) (by decide) (by decide) (by decide) (by decide) (by decide)).1⟩

/-- C7 (counterexample): the client-side cleanup of a conversation whose
raw bytes are "A" but whose colored buffer is ESC·"A" appends the COLORED
bytes to the `.bin` file, not the raw conversation — refuting "the raw
conversation bytes (not a transformed version) are written". -/
theorem c7_counterexample :
    ((cleanup [] regEmpty "out" readerC parentC factory0).2.2.2.saveEff.map
        fun e => e.fileAppended.map fun x => x.2) = some (some [27, 65]) ∧
    parentC.conversationRaw = [65] ∧ ([27, 65] : List Nat) ≠ [65] := by
  decide

/-- C7 (amended): when the client-side reader performs its end-of-stream
cleanup with a non-empty raw conversation, the COLORED conversation bytes
are appended to `out/tcpConnections/serviceClass/ident.bin` (the source
explicitly saves the colored version under the raw-sounding name), the
`savedConnections` counter is incremented, and the harvesters run against
the raw bytes. -/
theorem c7_cleanup_saves_colored (hv : List (List Nat → Option String))
    (reg : Nat → String) (outDir : String) (h : ReaderSt) (p : ParentSt)
    (f : FactorySt) (hc : h.isClient = true) (hne : p.conversationRaw ≠ []) :
    (cleanup hv reg outDir h p f).2.2.2.saveEff = some
      ⟨(runHarvesters hv p.conversationRaw).1,
       (runHarvesters hv p.conversationRaw).2,
       some [outDir, "tcpConnections", getServiceName reg p.conversationRaw p.dstPort],
       some ([outDir, "tcpConnections", getServiceName reg p.conversationRaw p.dstPort,
              pathBase p.ident ++ ".bin"], p.conversationColored),
       1⟩ := by
  unfold cleanup saveConnection
  rw [hc]
  dsimp only
  rw [if_neg hne]
  split <;> rfl

/-- C7 witness: the amended save behaviour at the concrete counterexample
input. -/
theorem c7_witness :
    (readerC.isClient = true ∧ parentC.conversationRaw ≠ []) ∧
    (cleanup [] regEmpty "out" readerC parentC factory0).2.2.2.saveEff = some
      ⟨(runHarvesters [] parentC.conversationRaw).1,
       (runHarvesters [] parentC.conversationRaw).2,
       some ["out", "tcpConnections",
             getServiceName regEmpty parentC.conversationRaw parentC.dstPort],
       some (["out", "tcpConnections",
              getServiceName regEmpty parentC.conversationRaw parentC.dstPort,
              pathBase parentC.ident ++ ".bin"], parentC.conversationColored),
       1⟩ :=
  ⟨⟨rfl, by decide⟩,
   c7_cleanup_saves_colored [] regEmpty "out" readerC parentC factory0 rfl (by decide)⟩

/-- C8: the service class used for the persistence directory is the
registry's port-lookup result when non-empty, otherwise "utf8" for valid
UTF-8 payloads and "unknown" otherwise — `getServiceName` agrees with the
spec-worded classification rule on every payload, port and registry. -/
theorem c8_service_class (reg : Nat → String) (data : List Nat) (port : Nat) :
    getServiceName reg data port = serviceClassSpec reg data port := by
  unfold getServiceName serviceClassSpec
  by_cases hr : reg port = "" <;> simp [hr]

/-- C9: every `Cleanup` invocation performs exactly one wait-group `Done`
and exactly one `numActive` decrement — on the first-direction-to-close
path and on the second — so the two reader tasks of one connection
decrement the counters exactly twice in total. -/
theorem c9_cleanup_decrements_once (hv : List (List Nat → Option String))
    (reg : Nat → String) (outDir : String) (hA hB : ReaderSt) (p : ParentSt)
    (f : FactorySt) :
    (cleanup hv reg outDir hA p f).2.2.2.wgDoneCalls = 1 ∧
    (cleanup hv reg outDir hA p f).2.2.2.numActiveDecs = 1 ∧
    (cleanup hv reg outDir hA p f).2.2.1.numActive = f.numActive - 1 ∧
    (cleanup hv reg outDir hA p f).2.2.1.wgPending = f.wgPending - 1 ∧
    (cleanup hv reg outDir hB (cleanup hv reg outDir hA p f).2.1
      (cleanup hv reg outDir hA p f).2.2.1).2.2.1.numActive = f.numActive - 2 ∧
    (cleanup hv reg outDir hB (cleanup hv reg outDir hA p f).2.1
      (cleanup hv reg outDir hA p f).2.2.1).2.2.1.wgPending = f.wgPending - 2 := by
  unfold cleanup
  dsimp only
  rcases hpl : p.lastFlag <;> simp [hpl] <;> constructor <;> omega

/-- C10: `saveConnection` on an empty raw conversation returns nil at once:
no harvester runs, no credentials record is emitted, no directory or file
is touched, and the `savedConnections` counter is not incremented. -/
theorem c10_save_empty_noop (hv : List (List Nat → Option String))
    (reg : Nat → String) (outDir : String) (colored : List Nat) (ident : String)
    (port : Nat) :
    saveConnection hv reg outDir [] colored ident port
      = (⟨none, 0, none, none, 0⟩, none) := by
  unfold saveConnection
  rfl

end Netcap
